import Mathlib

/-!
# Verification of `passenger-ready` (src/main.rs)

A shallow embedding of the Rust program in `src/main.rs` together with proofs
about its behaviour.

The program is a health-check adapter:

* `get_queue_length` invokes `passenger-status` under a 5-second timeout and
  parses the queue depth from its stdout (split on `":"`, second field,
  trimmed, parsed as `i32`);
* `can_take_more_traffic` compares the observed depth `d` against the
  configured maximum `M` using 32-bit floats:
  `(d as f32) < (M as f32 * 0.8)`;
* the warp handler maps `Ok(true)` to `200 "true"` and everything else to
  `503 "false"`;
* `load_settings` loads `max_queue_length` (default 100) and `server_port`
  (default 8080) from the environment.

The subprocess interaction is modelled by a `ProcOutcome` input describing how
the external invocation went (timed out / I/O error / completed with an exit
status and stdout text); everything downstream of that outcome is translated
directly from the source.  `f32` arithmetic is modelled exactly over `ℚ`:
`rne` is round-half-to-even on rationals and `roundF32` rounds a rational to
the nearest binary32 value (24-bit significand, round-to-nearest-even).  All
values appearing in this program lie well inside the normal finite range of
binary32, so overflow and subnormal behaviour are irrelevant and not modelled.
-/

namespace PassengerReady

/-- Round a rational to the nearest integer, ties to even
(the IEEE-754 default rounding used by Rust's `f32` casts and arithmetic).
The fractional part is compared against one half, written division-free. -/
def rne (x : ℚ) : ℤ :=
if 2 * (x - ⌊x⌋) < 1 then ⌊x⌋
else if 1 < 2 * (x - ⌊x⌋) then ⌊x⌋ + 1
else if ⌊x⌋ % 2 = 0 then ⌊x⌋ else ⌊x⌋ + 1

/-- Round a positive rational to the nearest binary32 value:
scale into the binade `[2^23, 2^24)`, round the 24-bit significand to the
nearest integer (ties to even), and scale back. -/
def roundF32pos (q : ℚ) : ℚ :=
((rne (q * 2 ^ ((23 : ℤ) - Int.log 2 q)) : ℤ) : ℚ) * 2 ^ (Int.log 2 q - 23)

/-- Round a rational to the nearest binary32 value (exact model of Rust `f32`
rounding for values in the normal finite range, which covers every value this
program computes). -/
def roundF32 (q : ℚ) : ℚ :=
if q < 0 then -roundF32pos (-q) else if q = 0 then 0 else roundF32pos q

/-- The `f32` literal `0.8` appearing in `can_take_more_traffic`:
the binary32 value nearest to 4/5. -/
def headroom32 : ℚ := roundF32 0.8

/-- `(queue_length as f32) < (max_queue_length as f32 * 0.8)` from
`can_take_more_traffic`, with every `f32` conversion and the `f32`
multiplication modelled by `roundF32`. -/
def verdictF32 (d M : ℤ) : Bool :=
decide (roundF32 (d : ℚ) < roundF32 (roundF32 (M : ℚ) * headroom32))

/-- Rust `char::is_whitespace` (the Unicode `White_Space` property),
used by `str::trim` in `get_queue_length`. -/
def isRustWhitespace (c : Char) : Bool :=
c.toNat = 0x09 || c.toNat = 0x0A || c.toNat = 0x0B || c.toNat = 0x0C ||
c.toNat = 0x0D || c.toNat = 0x20 || c.toNat = 0x85 || c.toNat = 0xA0 ||
c.toNat = 0x1680 || (0x2000 ≤ c.toNat && c.toNat ≤ 0x200A) ||
c.toNat = 0x2028 || c.toNat = 0x2029 || c.toNat = 0x202F ||
c.toNat = 0x205F || c.toNat = 0x3000

/-- Rust `str::trim`: remove leading and trailing whitespace. -/
def trimChars (cs : List Char) : List Char :=
((cs.dropWhile isRustWhitespace).reverse.dropWhile isRustWhitespace).reverse

/-- Rust `str::split(":")` for a one-character separator: the list of fields
between occurrences of `c` (empty fields included, as in Rust). -/
def splitOnChar (c : Char) : List Char → List (List Char)
| [] => [[]]
| a :: rest =>
  if a = c then [] :: splitOnChar c rest
  else
    match splitOnChar c rest with
    | [] => [[a]]
    | h :: t => (a :: h) :: t

/-- ASCII decimal digit test, as in Rust's integer parsing. -/
def asciiDigit (c : Char) : Bool := 48 ≤ c.toNat && c.toNat ≤ 57

/-- Value of a list of ASCII digits read in base 10. -/
def digitsVal (cs : List Char) : ℕ :=
cs.foldl (fun a c => a * 10 + (c.toNat - 48)) 0

/-- Rust decimal-integer syntax without any width bound: an optional `+`/`-`
sign followed by one or more ASCII digits.  Returns the mathematical value. -/
def parseIntUnbounded (cs : List Char) : Option ℤ :=
match cs with
| [] => none
| c :: rest =>
  if c = '-' then
    if rest ≠ [] ∧ rest.all asciiDigit then some (-(digitsVal rest : ℤ)) else none
  else if c = '+' then
    if rest ≠ [] ∧ rest.all asciiDigit then some ((digitsVal rest : ℤ)) else none
  else if (c :: rest).all asciiDigit then some ((digitsVal (c :: rest) : ℤ)) else none

/-- Rust `str::parse::<i32>()`: decimal syntax plus the `i32` range check
(`-2^31 ≤ v ≤ 2^31 - 1`; out-of-range well-formed numbers are errors). -/
def parse_i32_core (cs : List Char) : Option ℤ :=
match parseIntUnbounded cs with
| some v => if -(2 ^ 31) ≤ v ∧ v ≤ 2 ^ 31 - 1 then some v else none
| none => none

/-- `str::parse::<i32>()` on a Lean `String`. -/
def parse_i32 (s : String) : Option ℤ := parse_i32_core s.data

/-- The stdout-parsing pipeline of `get_queue_length`:
`output_str.split(":").nth(1)`, then `trim`, then `parse::<i32>()`. -/
def parseQueueOutput (out : String) : Option ℤ :=
match (splitOnChar ':' out.data)[1]? with
| some t => parse_i32_core (trimChars t)
| none => none

/-- How the bounded external invocation
`timeout(5s, Command::new("sh")...output()).await??` went.  The three shapes
correspond to the code's own `Result<io::Result<Output>, Elapsed>`:
the 5-second timeout elapsed, the invocation failed with an `io::Error`,
or the command completed with an exit status and stdout text
(stdout is taken after `String::from_utf8_lossy`, which is total). -/
inductive ProcOutcome where
| timedOut : ProcOutcome
| ioErr : ProcOutcome
| completed (exitSuccess : Bool) (stdout : String) : ProcOutcome
deriving DecidableEq

/-- The failure modes of `get_queue_length` (in the source all four are
`anyhow` errors; the spec's taxonomy names timeout, command failure and parse
failure, and the `??` line can additionally propagate an `io::Error`). -/
inductive InspectError where
| timeout : InspectError
| ioFailure : InspectError
| commandFailed : InspectError
| parseFailed : InspectError
deriving DecidableEq

/-- `Duration::from_secs(5)`: the bounded wait applied to the external
status command. -/
def inspectTimeoutSecs : ℕ := 5

/-- `get_queue_length`, as a function of how the external invocation went:
propagate the timeout and the spawn `io::Error` (`.await??`); on completion,
non-zero exit status is an error, and otherwise stdout is split on `":"`,
the second field is trimmed and parsed as `i32`. -/
def get_queue_length (o : ProcOutcome) : Except InspectError ℤ :=
match o with
| ProcOutcome.timedOut => Except.error InspectError.timeout
| ProcOutcome.ioErr => Except.error InspectError.ioFailure
| ProcOutcome.completed exitSuccess out =>
  if exitSuccess then
    match parseQueueOutput out with
    | some n => Except.ok n
    | none => Except.error InspectError.parseFailed
  else Except.error InspectError.commandFailed

/-- `can_take_more_traffic(max_queue_length)`: propagate any inspector error
(`let queue_length = get_queue_length().await?`), else compare in `f32`:
`Ok((queue_length as f32) < (max_queue_length as f32 * 0.8))`. -/
def can_take_more_traffic (o : ProcOutcome) (max_queue_length : ℤ) :
    Except InspectError Bool :=
match get_queue_length o with
| Except.ok q => Except.ok (verdictF32 q max_queue_length)
| Except.error e => Except.error e

/-- Stand-in for `warp::Rejection` (the handler's error type; the handler
never constructs one). -/
structure Rejection where

/-- The `GET /health` handler body: `Ok(true)` becomes `200 "true"`, and both
`Ok(false)` and `Err(_)` become `503 "false"`. -/
def health_route (o : ProcOutcome) (max_queue_length : ℤ) :
    Except Rejection (ℕ × String) :=
match can_take_more_traffic o max_queue_length with
| Except.ok true => Except.ok (200, "true")
| Except.ok false => Except.ok (503, "false")
| Except.error _ => Except.ok (503, "false")

/-- The `Settings` struct (`max_queue_length: i32`, `server_port: u16`). -/
structure Settings where
  max_queue_length : ℤ
  server_port : ℕ
deriving DecidableEq

/-- `config::ConfigError` (only its presence matters here). -/
inductive ConfigError where
| invalid : ConfigError
deriving DecidableEq

/-- `config::Environment::new()` exposes every environment variable under its
lower-cased name; look a key up in such an environment. -/
def lookupEnv (env : List (String × String)) (key : String) : Option String :=
(env.find? (fun kv => kv.1.toLower == key)).map Prod.snd

/-- `load_settings`: defaults `max_queue_length = 100`, `server_port = 8080`
(`cfg.set_default`), overridden by any matching environment variable
(`cfg.merge(config::Environment::new())`), then deserialized into `Settings`
(`i32` / `u16` fields); any unparseable or out-of-range value is a
`ConfigError`. -/
def load_settings (env : List (String × String)) : Except ConfigError Settings :=
match (match lookupEnv env "max_queue_length" with
       | none => some (100 : ℤ)
       | some s => parse_i32 s) with
| none => Except.error ConfigError.invalid
| some m =>
  match (match lookupEnv env "server_port" with
         | none => some (8080 : ℤ)
         | some s => parse_i32 s) with
  | none => Except.error ConfigError.invalid
  | some p =>
    if 0 ≤ p ∧ p < 65536 then Except.ok ⟨m, p.toNat⟩
    else Except.error ConfigError.invalid

/-- Did the outcome time out? -/
def isTimedOut : ProcOutcome → Bool
| ProcOutcome.timedOut => true
| _ => false

/-- Did the invocation itself fail with an `io::Error`? -/
def isIoErr : ProcOutcome → Bool
| ProcOutcome.ioErr => true
| _ => false

/-- Did the command complete with a non-zero exit status? -/
def isNonzeroExit : ProcOutcome → Bool
| ProcOutcome.completed exitSuccess _ => !exitSuccess
| _ => false

/-- Did the command succeed with stdout that the pipeline cannot parse? -/
def isParseFailure : ProcOutcome → Bool
| ProcOutcome.completed true out => (parseQueueOutput out).isNone
| _ => false

/-- Is an inspector result an error? -/
def isInspectErr : Except InspectError ℤ → Bool
| Except.error _ => true
| Except.ok _ => false

/-! ### Round-to-nearest-even: basic lemmas -/

theorem rne_floor_le (x : ℚ) : ⌊x⌋ ≤ rne x := by
unfold rne
split_ifs <;> omega

theorem rne_le_ceil (x : ℚ) : rne x ≤ ⌈x⌉ := by
have hfl := Int.floor_le x
unfold rne
split_ifs with h1 h2 h3
· exact Int.floor_le_ceil x
· have hx : (⌊x⌋ : ℚ) < x := by linarith
  have := Int.lt_ceil.mpr hx
  omega
· exact Int.floor_le_ceil x
· have hx : (⌊x⌋ : ℚ) < x := by linarith
  have := Int.lt_ceil.mpr hx
  omega

theorem rne_intCast_add (n : ℤ) (f : ℚ) (h0 : 0 ≤ f) (h : 2 * f < 1) :
    rne ((n : ℚ) + f) = n := by
have hfl : ⌊(n : ℚ) + f⌋ = n := by
  rw [Int.floor_int_add]
  have : ⌊f⌋ = 0 := Int.floor_eq_zero_iff.mpr ⟨h0, by linarith⟩
  omega
unfold rne
rw [hfl, if_pos (by linarith)]

theorem rne_intCast (n : ℤ) : rne (n : ℚ) = n := by
have := rne_intCast_add n 0 le_rfl (by norm_num)
simpa using this

theorem rne_intCast_add_up (n : ℤ) (f : ℚ) (h0 : 1 < 2 * f) (h1 : f < 1) :
    rne ((n : ℚ) + f) = n + 1 := by
have hfl : ⌊(n : ℚ) + f⌋ = n := by
  rw [Int.floor_int_add]
  have : ⌊f⌋ = 0 := Int.floor_eq_zero_iff.mpr ⟨by linarith, h1⟩
  omega
unfold rne
rw [hfl, if_neg (by linarith), if_pos (by linarith)]

theorem rne_ge_of_half_lt (N : ℤ) (x : ℚ) (h : 2 * N + 1 < 2 * x) :
    N + 1 ≤ rne x := by
have hNle : N ≤ ⌊x⌋ := Int.le_floor.mpr (by linarith)
rcases eq_or_lt_of_le hNle with heq | hlt
· have hfr : 1 < 2 * (x - (⌊x⌋ : ℚ)) := by
    rw [← heq]; linarith
  unfold rne
  rw [if_neg (by linarith), if_pos hfr]
  omega
· have := rne_floor_le x
  omega

/-! ### `roundF32`: evaluation, bounds, exactness -/

theorem roundF32_of_pos (q : ℚ) (hq : 0 < q) : roundF32 q = roundF32pos q := by
unfold roundF32
rw [if_neg (not_lt.mpr hq.le), if_neg hq.ne']

theorem roundF32_zero : roundF32 0 = 0 := by
unfold roundF32
norm_num

theorem log2_lb (q : ℚ) (h0 : 0 < q) : (2 : ℚ) ^ Int.log 2 q ≤ q := by
have := Int.zpow_log_le_self Nat.one_lt_two h0
exact_mod_cast this

theorem log2_ub (q : ℚ) : q < (2 : ℚ) ^ (Int.log 2 q + 1) := by
have := Int.lt_zpow_succ_log_self Nat.one_lt_two q
exact_mod_cast this

theorem log2_eq (q : ℚ) (e : ℤ) (h0 : 0 < q) (h1 : (2 : ℚ) ^ e ≤ q)
    (h2 : q < (2 : ℚ) ^ (e + 1)) : Int.log 2 q = e := by
have hle : e ≤ Int.log 2 q := (Int.zpow_le_iff_le_log Nat.one_lt_two h0).mp (by exact_mod_cast h1)
have hlt : Int.log 2 q < e + 1 :=
  (Int.lt_zpow_iff_log_lt Nat.one_lt_two h0).mp (by exact_mod_cast h2)
omega

theorem roundF32pos_eval (q : ℚ) (e : ℤ) (h0 : 0 < q) (h1 : (2 : ℚ) ^ e ≤ q)
    (h2 : q < (2 : ℚ) ^ (e + 1)) :
    roundF32pos q = ((rne (q * 2 ^ ((23 : ℤ) - e)) : ℤ) : ℚ) * 2 ^ (e - 23) := by
unfold roundF32pos
rw [log2_eq q e h0 h1 h2]

theorem roundF32pos_eq_of_near (q : ℚ) (e U : ℤ) (f : ℚ) (h0 : 0 < q)
    (h1 : (2 : ℚ) ^ e ≤ q) (h2 : q < (2 : ℚ) ^ (e + 1))
    (hz : q * 2 ^ ((23 : ℤ) - e) = (U : ℚ) + f) (hf0 : 0 ≤ f) (hf1 : 2 * f < 1) :
    roundF32pos q = (U : ℚ) * 2 ^ (e - 23) := by
rw [roundF32pos_eval q e h0 h1 h2, hz, rne_intCast_add U f hf0 hf1]

theorem roundF32pos_eq_of_up (q : ℚ) (e U : ℤ) (f : ℚ) (h0 : 0 < q)
    (h1 : (2 : ℚ) ^ e ≤ q) (h2 : q < (2 : ℚ) ^ (e + 1))
    (hz : q * 2 ^ ((23 : ℤ) - e) = (U : ℚ) + f) (hf0 : 1 < 2 * f) (hf1 : f < 1) :
    roundF32pos q = ((U + 1 : ℤ) : ℚ) * 2 ^ (e - 23) := by
rw [roundF32pos_eval q e h0 h1 h2, hz, rne_intCast_add_up U f hf0 hf1]

theorem roundF32pos_le_of (q : ℚ) (e C : ℤ) (h0 : 0 < q) (h1 : (2 : ℚ) ^ e ≤ q)
    (h2 : q < (2 : ℚ) ^ (e + 1)) (hC : q * 2 ^ ((23 : ℤ) - e) ≤ (C : ℚ)) :
    roundF32pos q ≤ (C : ℚ) * 2 ^ (e - 23) := by
rw [roundF32pos_eval q e h0 h1 h2]
have h3 : rne (q * 2 ^ ((23 : ℤ) - e)) ≤ ⌈q * 2 ^ ((23 : ℤ) - e)⌉ := rne_le_ceil _
have h4 : ⌈q * 2 ^ ((23 : ℤ) - e)⌉ ≤ C := Int.ceil_le.mpr hC
have h5 : ((rne (q * 2 ^ ((23 : ℤ) - e)) : ℤ) : ℚ) ≤ (C : ℚ) := by
  exact_mod_cast le_trans h3 h4
exact mul_le_mul_of_nonneg_right h5 (zpow_pos two_pos _).le

theorem roundF32pos_lt_of (q : ℚ) (e K : ℤ) (h0 : 0 < q) (h1 : (2 : ℚ) ^ e ≤ q)
    (h2 : q < (2 : ℚ) ^ (e + 1))
    (hK : 2 * (K : ℚ) + 1 < 2 * (q * 2 ^ ((23 : ℤ) - e))) :
    (K : ℚ) * 2 ^ (e - 23) < roundF32pos q := by
rw [roundF32pos_eval q e h0 h1 h2]
have h3 : K + 1 ≤ rne (q * 2 ^ ((23 : ℤ) - e)) := rne_ge_of_half_lt K _ (by linarith)
have h5 : ((K : ℤ) : ℚ) < ((rne (q * 2 ^ ((23 : ℤ) - e)) : ℤ) : ℚ) := by
  exact_mod_cast lt_of_lt_of_le (lt_add_one K) h3
exact mul_lt_mul_of_pos_right h5 (zpow_pos two_pos _)

theorem roundF32pos_ge_zpow (q : ℚ) (h0 : 0 < q) :
    (2 : ℚ) ^ Int.log 2 q ≤ roundF32pos q := by
set e := Int.log 2 q with hedef
have h1 := log2_lb q h0
have h2 := log2_ub q
rw [roundF32pos_eval q e h0 h1 h2]
have hsplit : (2 : ℚ) ^ (23 : ℤ) = 2 ^ e * 2 ^ ((23 : ℤ) - e) := by
  rw [← zpow_add₀ (two_ne_zero) e ((23 : ℤ) - e)]
  congr 1
  omega
have hz : ((8388608 : ℤ) : ℚ) ≤ q * 2 ^ ((23 : ℤ) - e) := by
  have hp : (0 : ℚ) < 2 ^ ((23 : ℤ) - e) := zpow_pos two_pos _
  calc ((8388608 : ℤ) : ℚ) = (2 : ℚ) ^ (23 : ℤ) := by norm_num
  _ = 2 ^ e * 2 ^ ((23 : ℤ) - e) := hsplit
  _ ≤ q * 2 ^ ((23 : ℤ) - e) := mul_le_mul_of_nonneg_right h1 hp.le
have h4 : (8388608 : ℤ) ≤ rne (q * 2 ^ ((23 : ℤ) - e)) :=
  le_trans (Int.le_floor.mpr hz) (rne_floor_le _)
have h5 : ((8388608 : ℤ) : ℚ) ≤ ((rne (q * 2 ^ ((23 : ℤ) - e)) : ℤ) : ℚ) := by
  exact_mod_cast h4
calc (2 : ℚ) ^ e = (2 : ℚ) ^ (23 : ℤ) * 2 ^ (e - 23) := by
      rw [← zpow_add₀ (two_ne_zero) (23 : ℤ) (e - 23)]
      congr 1
      omega
_ = ((8388608 : ℤ) : ℚ) * 2 ^ (e - 23) := by norm_num
_ ≤ _ := mul_le_mul_of_nonneg_right h5 (zpow_pos two_pos _).le

theorem roundF32pos_pos (q : ℚ) (h0 : 0 < q) : 0 < roundF32pos q :=
lt_of_lt_of_le (zpow_pos two_pos _) (roundF32pos_ge_zpow q h0)

theorem roundF32pos_intCast (n : ℤ) (hn1 : 1 ≤ n) (hn2 : n ≤ 16777216) :
    roundF32pos (n : ℚ) = (n : ℚ) := by
have h0 : (0 : ℚ) < (n : ℚ) := by exact_mod_cast (by omega : (0 : ℤ) < n)
set e := Int.log 2 ((n : ℚ)) with hedef
have hl : (2 : ℚ) ^ e ≤ (n : ℚ) := log2_lb _ h0
have hu : (n : ℚ) < 2 ^ (e + 1) := log2_ub _
have he0 : 0 ≤ e := by
  by_contra hc
  push_neg at hc
  have h1 : (2 : ℚ) ^ (e + 1) ≤ 2 ^ (0 : ℤ) := zpow_le_zpow_right₀ one_le_two (by omega)
  rw [zpow_zero] at h1
  have h2 : (n : ℚ) < 1 := hu.trans_le h1
  have h3 : n < 1 := by exact_mod_cast h2
  omega
have he24 : e ≤ 24 := by
  by_contra hc
  push_neg at hc
  have h25 : (2 : ℚ) ^ (25 : ℤ) ≤ 2 ^ e := zpow_le_zpow_right₀ one_le_two (by omega)
  have h2n : ((33554432 : ℤ) : ℚ) ≤ (n : ℚ) := by
    calc ((33554432 : ℤ) : ℚ) = (2 : ℚ) ^ (25 : ℤ) := by norm_num
    _ ≤ 2 ^ e := h25
    _ ≤ (n : ℚ) := hl
  have h3 : (33554432 : ℤ) ≤ n := by exact_mod_cast h2n
  omega
rcases (by omega : e ≤ 23 ∨ e = 24) with he23 | heq
· obtain ⟨p, hp⟩ : ∃ p : ℕ, (23 : ℤ) - e = (p : ℤ) :=
    ⟨(23 - e).toNat, (Int.toNat_of_nonneg (by omega)).symm⟩
  have hz : (n : ℚ) * 2 ^ ((23 : ℤ) - e) = ((n * 2 ^ p : ℤ) : ℚ) + 0 := by
    rw [hp, add_zero, zpow_natCast]
    push_cast
    ring
  have hres := roundF32pos_eq_of_near ((n : ℚ)) e (n * 2 ^ p) 0 h0 hl hu hz le_rfl (by norm_num)
  rw [hres]
  push_cast
  rw [mul_assoc, ← zpow_natCast (2 : ℚ) p, ← zpow_add₀ (two_ne_zero : (2 : ℚ) ≠ 0)]
  rw [(by omega : (p : ℤ) + (e - 23) = 0), zpow_zero, mul_one]
· have h24 : ((16777216 : ℤ) : ℚ) ≤ (n : ℚ) := by
    calc ((16777216 : ℤ) : ℚ) = (2 : ℚ) ^ (24 : ℤ) := by norm_num
    _ = (2 : ℚ) ^ e := by rw [heq]
    _ ≤ (n : ℚ) := hl
  have hn : n = 16777216 := by
    have h3 : (16777216 : ℤ) ≤ n := by exact_mod_cast h24
    omega
  subst hn
  have hz : ((16777216 : ℤ) : ℚ) * 2 ^ ((23 : ℤ) - e) = ((8388608 : ℤ) : ℚ) + 0 := by
    rw [heq]
    norm_num
  have hres := roundF32pos_eq_of_near _ e 8388608 0 h0 hl hu hz le_rfl (by norm_num)
  rw [hres, heq]
  norm_num

theorem roundF32_intCast (n : ℤ) (hn1 : -16777216 ≤ n) (hn2 : n ≤ 16777216) :
    roundF32 (n : ℚ) = (n : ℚ) := by
rcases lt_trichotomy n 0 with h | h | h
· have hneg : ((n : ℚ)) < 0 := by exact_mod_cast h
  unfold roundF32
  rw [if_pos hneg]
  have hcast : -((n : ℚ)) = (((-n : ℤ)) : ℚ) := by push_cast; ring
  rw [hcast, roundF32pos_intCast (-n) (by omega) (by omega)]
  push_cast
  ring
· subst h
  simpa using roundF32_zero
· have hpos : (0 : ℚ) < (n : ℚ) := by exact_mod_cast h
  rw [roundF32_of_pos _ hpos, roundF32pos_intCast n (by omega) (by omega)]

theorem roundF32_intCast_big (n : ℤ) (hn : 16777216 < n) :
    (16777216 : ℚ) ≤ roundF32 (n : ℚ) := by
have h0 : (0 : ℚ) < (n : ℚ) := by exact_mod_cast (by omega : (0 : ℤ) < n)
rw [roundF32_of_pos _ h0]
set e := Int.log 2 ((n : ℚ)) with hedef
have hu : (n : ℚ) < 2 ^ (e + 1) := log2_ub _
have he24 : 24 ≤ e := by
  by_contra hc
  push_neg at hc
  have h1 : (2 : ℚ) ^ (e + 1) ≤ 2 ^ (24 : ℤ) := zpow_le_zpow_right₀ one_le_two (by omega)
  have h2 : (n : ℚ) < (2 : ℚ) ^ (24 : ℤ) := hu.trans_le h1
  have h3 : (n : ℚ) < ((16777216 : ℤ) : ℚ) := by
    calc (n : ℚ) < (2 : ℚ) ^ (24 : ℤ) := h2
    _ = ((16777216 : ℤ) : ℚ) := by norm_num
  have h4 : n < 16777216 := by exact_mod_cast h3
  omega
calc (16777216 : ℚ) = (2 : ℚ) ^ (24 : ℤ) := by norm_num
_ ≤ (2 : ℚ) ^ e := zpow_le_zpow_right₀ one_le_two he24
_ ≤ roundF32pos ((n : ℚ)) := roundF32pos_ge_zpow _ h0

theorem roundF32_intCast_neg (n : ℤ) (hn : n < 0) : roundF32 (n : ℚ) < 0 := by
have hneg : ((n : ℚ)) < 0 := by exact_mod_cast hn
unfold roundF32
rw [if_pos hneg]
have hp : 0 < roundF32pos (-(n : ℚ)) := roundF32pos_pos _ (by linarith)
linarith

theorem roundF32_lt_zero_iff (n : ℤ) : roundF32 (n : ℚ) < 0 ↔ n < 0 := by
constructor
· intro h
  by_contra hc
  push_neg at hc
  rcases eq_or_lt_of_le hc with heq | hlt
  · rw [← heq] at h
    rw [show ((0 : ℤ) : ℚ) = 0 by norm_num, roundF32_zero] at h
    exact absurd h (by norm_num)
  · have hpos : (0 : ℚ) < (n : ℚ) := by exact_mod_cast hlt
    rw [roundF32_of_pos _ hpos] at h
    exact absurd h (not_lt.mpr (roundF32pos_pos _ hpos).le)
· exact roundF32_intCast_neg n

theorem headroom32_eq : headroom32 = 13421773 / 16777216 := by
unfold headroom32
have h08 : (0.8 : ℚ) = 4 / 5 := by norm_num
have hpos : (0 : ℚ) < 0.8 := by norm_num
rw [roundF32_of_pos _ hpos]
have hl : (2 : ℚ) ^ (-1 : ℤ) ≤ 0.8 := by
  rw [h08, zpow_neg, zpow_one]
  norm_num
have hu : (0.8 : ℚ) < 2 ^ ((-1 : ℤ) + 1) := by
  rw [h08]
  norm_num
have hz : (0.8 : ℚ) * 2 ^ ((23 : ℤ) - (-1)) = ((13421772 : ℤ) : ℚ) + 4 / 5 := by
  rw [h08]
  norm_num
have hres := roundF32pos_eq_of_up (0.8 : ℚ) (-1) 13421772 (4 / 5) hpos hl hu hz
  (by norm_num) (by norm_num)
rw [hres]
norm_num

/-! ### The f32 admission threshold

For a positive configured maximum `M` with `4M/5 < 2^23` (every `M` up to
10485759), the `f32` product `(M as f32) * 0.8f32` lands strictly between
`⌈4M/5⌉ - 1` and `⌈4M/5⌉`, so comparing an integer depth against it agrees
with the exact comparison against `4M/5`.  The first positive `M` where this
fails is 10485764. -/

theorem collapse_pow (X : ℤ) (p : ℕ) (e : ℤ) (hp : ((p : ℤ)) = 23 - e) :
    ((X * 2 ^ p : ℤ) : ℚ) * 2 ^ (e - 23) = (X : ℚ) := by
push_cast
rw [mul_assoc, ← zpow_natCast (2 : ℚ) p, ← zpow_add₀ (two_ne_zero : (2 : ℚ) ≠ 0)]
rw [(by omega : (p : ℤ) + (e - 23) = 0), zpow_zero, mul_one]

theorem threshold_bounds (M : ℤ) (hM1 : 0 < M) (hM2 : M ≤ 10485759) :
    ((⌈4 * (M : ℚ) / 5⌉ : ℚ) - 1 < roundF32 ((M : ℚ) * headroom32)) ∧
    roundF32 ((M : ℚ) * headroom32) ≤ (⌈4 * (M : ℚ) / 5⌉ : ℚ) := by
rw [headroom32_eq]
set q : ℚ := (M : ℚ) * (13421773 / 16777216) with hqdef
have hM1Q : (0 : ℚ) < (M : ℚ) := by exact_mod_cast hM1
have hM2Q : (M : ℚ) ≤ 10485759 := by exact_mod_cast hM2
have hq0 : 0 < q := by rw [hqdef]; positivity
rw [roundF32_of_pos _ hq0]
set k : ℤ := 4 * M / 5 with hkdef
set r : ℤ := 4 * M % 5 with hrdef
have hr0 : 0 ≤ r := by omega
have hr4 : r ≤ 4 := by omega
have hk0 : 0 ≤ k := by omega
have hk_ub : k ≤ 8388607 := by omega
have haQ : 4 * (M : ℚ) = 5 * (k : ℚ) + (r : ℚ) := by
  exact_mod_cast congrArg (Int.cast : ℤ → ℚ) (by omega : (4 * M : ℤ) = 5 * k + r)
have hqa : q * 335544320 = 335544325 * (k : ℚ) + 67108865 * (r : ℚ) := by
  rw [hqdef]
  linear_combination ((67108865 : ℚ)) * haQ
have hrQ0 : (0 : ℚ) ≤ (r : ℚ) := by exact_mod_cast hr0
have hrQ4 : (r : ℚ) ≤ 4 := by exact_mod_cast hr4
have hkQ0 : (0 : ℚ) ≤ (k : ℚ) := by exact_mod_cast hk0
have hkQub : (k : ℚ) ≤ 8388607 := by exact_mod_cast hk_ub
have hq23 : q < (2 : ℚ) ^ (23 : ℤ) := by
  have h1 : (2 : ℚ) ^ (23 : ℤ) = 8388608 := by norm_num
  rw [h1]
  linarith
set e : ℤ := Int.log 2 q with hedef
have hl : (2 : ℚ) ^ e ≤ q := log2_lb q hq0
have hu : q < 2 ^ (e + 1) := log2_ub q
have he22 : e ≤ 22 := by
  by_contra hc
  push_neg at hc
  have h1 : (2 : ℚ) ^ (23 : ℤ) ≤ 2 ^ e := zpow_le_zpow_right₀ one_le_two (by omega)
  linarith
obtain ⟨p, hp⟩ : ∃ p : ℕ, ((p : ℤ)) = 23 - e := ⟨(23 - e).toNat, Int.toNat_of_nonneg (by omega)⟩
have h2pz : (2 : ℚ) ^ ((23 : ℤ) - e) = (2 : ℚ) ^ p := by rw [← hp, zpow_natCast]
have h2pq : (0 : ℚ) < (2 : ℚ) ^ p := by positivity
have hkq : (k : ℚ) ≤ q := by linarith
have hkp_lt : (k : ℚ) * 2 ^ p < 16777216 := by
  have h1 : (k : ℚ) * 2 ^ p ≤ q * 2 ^ p := mul_le_mul_of_nonneg_right hkq h2pq.le
  have h2 : q * 2 ^ p < 2 ^ (e + 1) * 2 ^ p := mul_lt_mul_of_pos_right hu h2pq
  have h3 : (2 : ℚ) ^ (e + 1) * 2 ^ p = 2 ^ (24 : ℤ) := by
    rw [← h2pz, ← zpow_add₀ (two_ne_zero : (2 : ℚ) ≠ 0)]
    congr 1
    omega
  have h4 : (2 : ℚ) ^ (24 : ℤ) = 16777216 := by norm_num
  linarith
rcases (by omega : r = 0 ∨ 1 ≤ r) with hrz | hr1
· have hyk : 4 * (M : ℚ) / 5 = (k : ℚ) := by
    rw [hrz] at haQ
    push_cast at haQ
    linarith
  have hceil : ⌈4 * (M : ℚ) / 5⌉ = k := by rw [hyk, Int.ceil_intCast]
  have hq64 : q * 67108864 = (k : ℚ) * 67108865 := by
    rw [hrz] at hqa
    push_cast at hqa
    linarith
  have hz : q * 2 ^ ((23 : ℤ) - e) = ((k * 2 ^ p : ℤ) : ℚ) + (k : ℚ) * 2 ^ p / 67108864 := by
    rw [h2pz]
    push_cast
    linear_combination ((2 : ℚ) ^ p / 67108864) * hq64
  have hf0 : (0 : ℚ) ≤ (k : ℚ) * 2 ^ p / 67108864 := by positivity
  have hf1 : 2 * ((k : ℚ) * 2 ^ p / 67108864) < 1 := by linarith
  have hres := roundF32pos_eq_of_near q e (k * 2 ^ p) _ hq0 hl hu hz hf0 hf1
  rw [hres, collapse_pow k p e hp, hceil]
  constructor
  · linarith
  · exact le_rfl
· have hrQ1 : (1 : ℚ) ≤ (r : ℚ) := by exact_mod_cast hr1
  have hceil : ⌈4 * (M : ℚ) / 5⌉ = k + 1 := by
    rw [Int.ceil_eq_iff]
    push_cast
    constructor
    · linarith
    · linarith
  have hq_le : q ≤ (k : ℚ) + 1 := by linarith
  have hC : q * 2 ^ ((23 : ℤ) - e) ≤ (((k + 1) * 2 ^ p : ℤ) : ℚ) := by
    rw [h2pz]
    push_cast
    have h1 := mul_le_mul_of_nonneg_right hq_le h2pq.le
    linarith
  have hub := roundF32pos_le_of q e ((k + 1) * 2 ^ p) hq0 hl hu hC
  rw [collapse_pow (k + 1) p e hp] at hub
  have hK : 2 * (((k * 2 ^ p : ℤ)) : ℚ) + 1 < 2 * (q * 2 ^ ((23 : ℤ) - e)) := by
    rw [h2pz]
    push_cast
    have hexp : (q - (k : ℚ)) * 2 ^ p = q * 2 ^ p - (k : ℚ) * 2 ^ p := by ring
    rcases (by omega : e ≤ 21 ∨ e = 22) with he21 | he22eq
    · have hp2 : 2 ≤ p := by omega
      have h4le : (4 : ℚ) ≤ 2 ^ p := by
        calc (4 : ℚ) = 2 ^ (2 : ℕ) := by norm_num
        _ ≤ 2 ^ p := pow_le_pow_right₀ one_le_two hp2
      have hqk : (1 : ℚ) / 5 ≤ q - (k : ℚ) := by linarith
      have h5 : (1 : ℚ) / 5 * 4 ≤ (q - (k : ℚ)) * 2 ^ p :=
        mul_le_mul hqk h4le (by norm_num) (by linarith)
      rw [hexp] at h5
      linarith
    · have hp1 : p = 1 := by omega
      rw [hp1]
      have hlq : (4194304 : ℚ) ≤ q := by
        have h1 : (2 : ℚ) ^ e = 4194304 := by rw [he22eq]; norm_num
        linarith
      rcases (by omega : 2 ≤ r ∨ r = 1) with hr2 | hrone
      · have hrQ2 : (2 : ℚ) ≤ (r : ℚ) := by exact_mod_cast hr2
        norm_num
        linarith
      · have hrQe : (r : ℚ) = 1 := by exact_mod_cast hrone
        norm_num
        linarith
  have hlb := roundF32pos_lt_of q e (k * 2 ^ p) hq0 hl hu hK
  rw [collapse_pow k p e hp] at hlb
  rw [hceil]
  push_cast at hub ⊢
  constructor
  · linarith
  · linarith


/-! ### The admission verdict versus the exact comparison -/

theorem roundF32_of_neg (q : ℚ) (h : q < 0) : roundF32 q = -roundF32pos (-q) := by
unfold roundF32
rw [if_pos h]

/-- For `0 < M ≤ 10485759` the f32 verdict agrees with the exact rational
comparison `d < 4M/5`, for every integer depth `d` whatsoever. -/
theorem verdictF32_eq_exact (d M : ℤ) (hM1 : 0 < M) (hM2 : M ≤ 10485759) :
    verdictF32 d M = true ↔ 5 * d < 4 * M := by
unfold verdictF32
rw [decide_eq_true_eq]
have hMexact : roundF32 (M : ℚ) = (M : ℚ) := roundF32_intCast M (by omega) (by omega)
rw [hMexact]
obtain ⟨hTlb, hTub⟩ := threshold_bounds M hM1 hM2
set T := roundF32 ((M : ℚ) * headroom32) with hT
set c : ℤ := ⌈4 * (M : ℚ) / 5⌉ with hc
have hM1Q : (0 : ℚ) < (M : ℚ) := by exact_mod_cast hM1
have hy0 : (0 : ℚ) < 4 * (M : ℚ) / 5 := by positivity
have hc1 : 1 ≤ c := by
  rw [hc]
  exact Int.ceil_pos.mpr hy0
have hcub : c ≤ 8388608 := by
  rw [hc]
  apply Int.ceil_le.mpr
  have hM2Q : (M : ℚ) ≤ 10485759 := by exact_mod_cast hM2
  push_cast
  linarith
have hc1Q : (1 : ℚ) ≤ (c : ℚ) := by exact_mod_cast hc1
rcases (by omega : d < 0 ∨ (0 ≤ d ∧ d ≤ 16777216) ∨ 16777216 < d) with hd | ⟨hd0, hd1⟩ | hd
· have h1 : roundF32 (d : ℚ) < 0 := roundF32_intCast_neg d hd
  constructor
  · intro _h
    omega
  · intro _h
    linarith
· have hdex : roundF32 (d : ℚ) = (d : ℚ) := roundF32_intCast d (by omega) (by omega)
  rw [hdex]
  constructor
  · intro h
    have hdc : (d : ℚ) < (c : ℚ) := lt_of_lt_of_le h hTub
    have hdcz : d < c := by exact_mod_cast hdc
    rw [hc] at hdcz
    have h4 : (d : ℚ) < 4 * (M : ℚ) / 5 := Int.lt_ceil.mp hdcz
    have h5 : 5 * (d : ℚ) < 4 * (M : ℚ) := by linarith
    exact_mod_cast h5
  · intro h
    have h5 : 5 * (d : ℚ) < 4 * (M : ℚ) := by exact_mod_cast h
    have h4 : (d : ℚ) < 4 * (M : ℚ) / 5 := by linarith
    have hdcz : d < c := by
      rw [hc]
      exact Int.lt_ceil.mpr h4
    have h6 : (d : ℚ) ≤ (c : ℚ) - 1 := by
      have h7 : ((d : ℤ) : ℚ) ≤ ((c - 1 : ℤ) : ℚ) := by exact_mod_cast (by omega : d ≤ c - 1)
      push_cast at h7
      linarith
    linarith
· have h1 : (16777216 : ℚ) ≤ roundF32 (d : ℚ) := roundF32_intCast_big d hd
  have h2 : (c : ℚ) ≤ 8388608 := by exact_mod_cast hcub
  constructor
  · intro h
    exfalso
    linarith
  · intro h
    exfalso
    omega

/-- `d < 0.8 * M` over ℚ is the integer comparison `5d < 4M`. -/
theorem exact_cmp_iff (d M : ℤ) : (d : ℚ) < 0.8 * (M : ℚ) ↔ 5 * d < 4 * M := by
rw [show (0.8 : ℚ) = 4 / 5 by norm_num]
constructor
· intro h
  exact_mod_cast (by linarith : 5 * (d : ℚ) < 4 * (M : ℚ))
· intro h
  have h2 : 5 * (d : ℚ) < 4 * (M : ℚ) := by exact_mod_cast h
  linarith

/-- With configured maximum 0, the verdict is `(d as f32) < 0.0`:
true exactly for negative depths. -/
theorem verdictF32_zero_max (d : ℤ) : verdictF32 d 0 = true ↔ d < 0 := by
unfold verdictF32
rw [decide_eq_true_eq]
rw [show (((0 : ℤ)) : ℚ) = 0 from by norm_num, roundF32_zero, zero_mul, roundF32_zero]
exact roundF32_lt_zero_iff d

/-- Evaluator reply when the inspector succeeds. -/
theorem can_take_eq (o : ProcOutcome) (d M : ℤ) (h : get_queue_length o = Except.ok d) :
    can_take_more_traffic o M = Except.ok (verdictF32 d M) := by
unfold can_take_more_traffic
rw [h]

/-- Evaluator reply when the inspector fails. -/
theorem can_take_err (o : ProcOutcome) (ε : InspectError) (M : ℤ)
    (h : get_queue_length o = Except.error ε) :
    can_take_more_traffic o M = Except.error ε := by
unfold can_take_more_traffic
rw [h]

/-- Concrete f32 evaluation: at `d = 8388611`, `M = 10485764` the code votes
`false` although `d < 4M/5` holds exactly (the product `M as f32 * 0.8`
rounds down to 8388611.0). -/
theorem verdictF32_8388611_10485764 : verdictF32 8388611 10485764 = false := by
have h1 : roundF32 (((8388611 : ℤ)) : ℚ) = (((8388611 : ℤ)) : ℚ) :=
  roundF32_intCast 8388611 (by norm_num) (by norm_num)
have h2 : roundF32 (((10485764 : ℤ)) : ℚ) = (((10485764 : ℤ)) : ℚ) :=
  roundF32_intCast 10485764 (by norm_num) (by norm_num)
unfold verdictF32
rw [h1, h2, headroom32_eq]
have hq0 : (0 : ℚ) < (((10485764 : ℤ)) : ℚ) * (13421773 / 16777216) := by norm_num
rw [roundF32_of_pos _ hq0]
have hres := roundF32pos_eq_of_near ((((10485764 : ℤ)) : ℚ) * (13421773 / 16777216)) 23
  8388611 (1363149 / 4194304) hq0 (by norm_num) (by norm_num) (by norm_num)
  (by norm_num) (by norm_num)
rw [hres]
simp only [decide_eq_false_iff_not]
norm_num

/-- Concrete f32 evaluation with a negative maximum: at `d = -4194305`,
`M = -5242881` the code votes `false` although `d < 4M/5` holds exactly
(the product rounds up, towards zero's side, to -4194305.0). -/
theorem verdictF32_neg4194305_neg5242881 : verdictF32 (-4194305) (-5242881) = false := by
have h1 : roundF32 (((-4194305 : ℤ)) : ℚ) = (((-4194305 : ℤ)) : ℚ) :=
  roundF32_intCast (-4194305) (by norm_num) (by norm_num)
have h2 : roundF32 (((-5242881 : ℤ)) : ℚ) = (((-5242881 : ℤ)) : ℚ) :=
  roundF32_intCast (-5242881) (by norm_num) (by norm_num)
unfold verdictF32
rw [h1, h2, headroom32_eq]
have hneg : (((-5242881 : ℤ)) : ℚ) * (13421773 / 16777216) < 0 := by norm_num
rw [roundF32_of_neg _ hneg]
have hflip : -((((-5242881 : ℤ)) : ℚ) * (13421773 / 16777216)) =
    (5242881 : ℚ) * (13421773 / 16777216) := by
  push_cast
  ring
rw [hflip]
have hq0 : (0 : ℚ) < (5242881 : ℚ) * (13421773 / 16777216) := by norm_num
have hres := roundF32pos_eq_of_up ((5242881 : ℚ) * (13421773 / 16777216)) 22
  8388609 (6081741 / 8388608) hq0 (by norm_num) (by norm_num) (by norm_num)
  (by norm_num) (by norm_num)
rw [hres]
simp only [decide_eq_false_iff_not]
rw [show ((22 : ℤ) - 23) = -1 by norm_num, zpow_neg, zpow_one]
norm_num

/-- Case analysis of the handler reply. -/
theorem health_route_total (o : ProcOutcome) (M : ℤ) :
    health_route o M = Except.ok (200, "true") ∨
    health_route o M = Except.ok (503, "false") := by
unfold health_route
rcases h : can_take_more_traffic o M with e | b
· right
  rfl
· rcases b with _ | _
  · right
    rfl
  · left
    rfl

/-! ### Claims -/

/-- C1 (corrected), counterexample: at depth `d = 8388611` and maximum
`M = 10485764 > 0` the code's verdict is `false` although `d < 0.8 * M`
holds exactly, so the claimed equivalence fails as stated. -/
theorem claim1_counterexample :
    verdictF32 8388611 10485764 = false ∧
    (((8388611 : ℤ)) : ℚ) < 0.8 * (((10485764 : ℤ)) : ℚ) ∧ (0 : ℤ) < 10485764 :=
⟨verdictF32_8388611_10485764, by norm_num, by norm_num⟩

/-- C1 (corrected): for every depth `d` observed by the inspector and every
configured maximum `0 < M ≤ 10485759`, `can_take_more_traffic` returns `true`
iff `d < 0.8 * M` (strict) and `false` otherwise.  (For larger `M` the f32
arithmetic can disagree with the exact comparison; the first failing positive
`M` is 10485764.) -/
theorem claim1_theorem (o : ProcOutcome) (d M : ℤ)
    (h : get_queue_length o = Except.ok d) (hM1 : 0 < M) (hM2 : M ≤ 10485759) :
    (can_take_more_traffic o M = Except.ok true ↔ (d : ℚ) < 0.8 * (M : ℚ)) ∧
    (can_take_more_traffic o M = Except.ok false ↔ ¬((d : ℚ) < 0.8 * (M : ℚ))) := by
have hv : verdictF32 d M = true ↔ (d : ℚ) < 0.8 * (M : ℚ) :=
  (verdictF32_eq_exact d M hM1 hM2).trans (exact_cmp_iff d M).symm
rw [can_take_eq o d M h]
constructor
· simp only [Except.ok.injEq]
  exact hv
· simp only [Except.ok.injEq, ← Bool.not_eq_true]
  exact not_congr hv

/-- C1 witness: with stdout reporting depth 79 and maximum 100 the evaluator
admits traffic (and 80 would be refused, being not below the threshold). -/
theorem claim1_witness :
    get_queue_length (ProcOutcome.completed true "Requests in top-level queue : 79") =
      Except.ok 79 ∧
    can_take_more_traffic (ProcOutcome.completed true "Requests in top-level queue : 79") 100 =
      Except.ok true :=
⟨rfl, (claim1_theorem (ProcOutcome.completed true "Requests in top-level queue : 79") 79 100
  rfl (by norm_num) (by norm_num)).1.mpr (by norm_num)⟩

/-- C2 (confirmed): every inspector failure propagates to the evaluator as an
error and the HTTP layer replies exactly `503 "false"`; no error reaches the
client in any other form. -/
theorem claim2_theorem (o : ProcOutcome) (ε : InspectError) (M : ℤ)
    (h : get_queue_length o = Except.error ε) :
    can_take_more_traffic o M = Except.error ε ∧
    health_route o M = Except.ok (503, "false") := by
have h1 := can_take_err o ε M h
refine ⟨h1, ?_⟩
unfold health_route
rw [h1]

/-- C2 witness: a timeout yields the `503 "false"` reply. -/
theorem claim2_witness :
    get_queue_length ProcOutcome.timedOut = Except.error InspectError.timeout ∧
    health_route ProcOutcome.timedOut 100 = Except.ok (503, "false") :=
⟨rfl, (claim2_theorem ProcOutcome.timedOut InspectError.timeout 100 rfl).2⟩

/-- C3 (corrected), counterexample: the inspector can report the negative
depth `-1` (e.g. stdout `"... : -1"`), and with maximum `M = 0` the verdict
at depth `-1` is `true`, not `false`: `-1.0f32 < 0.0f32 * 0.8`. -/
theorem claim3_counterexample :
    get_queue_length (ProcOutcome.completed true "Requests in top-level queue : -1") =
      Except.ok (-1) ∧
    can_take_more_traffic (ProcOutcome.completed true "Requests in top-level queue : -1") 0 =
      Except.ok true := by
constructor
· rfl
· rw [can_take_eq (ProcOutcome.completed true "Requests in top-level queue : -1") (-1) 0 rfl,
    (verdictF32_zero_max (-1)).mpr (by norm_num)]

/-- C3 (corrected): with configured maximum `M = 0` the verdict is `false`
for every nonnegative depth the inspector reports (negative reported depths
yield `true`). -/
theorem claim3_theorem (o : ProcOutcome) (d : ℤ)
    (h : get_queue_length o = Except.ok d) (hd : 0 ≤ d) :
    can_take_more_traffic o 0 = Except.ok false := by
rw [can_take_eq o d 0 h]
have hv : verdictF32 d 0 = false := by
  rw [← Bool.not_eq_true]
  intro hc
  have := (verdictF32_zero_max d).mp hc
  omega
rw [hv]

/-- C3 witness: depth 5 with maximum 0 is refused. -/
theorem claim3_witness :
    get_queue_length (ProcOutcome.completed true "Requests in top-level queue : 5") =
      Except.ok 5 ∧
    can_take_more_traffic (ProcOutcome.completed true "Requests in top-level queue : 5") 0 =
      Except.ok false :=
⟨rfl, claim3_theorem (ProcOutcome.completed true "Requests in top-level queue : 5") 5 rfl
  (by norm_num)⟩

/-- C4 (confirmed): the `/health` reply is `200 "true"` exactly when the
verdict is `Ok(true)` and `503 "false"` in every other case; no other
status/body combination is ever produced. -/
theorem claim4_theorem (o : ProcOutcome) (M : ℤ) :
    (health_route o M = Except.ok (200, "true") ∨
      health_route o M = Except.ok (503, "false")) ∧
    (health_route o M = Except.ok (200, "true") ↔
      can_take_more_traffic o M = Except.ok true) ∧
    (health_route o M = Except.ok (503, "false") ↔
      can_take_more_traffic o M ≠ Except.ok true) := by
refine ⟨health_route_total o M, ?_, ?_⟩ <;>
  unfold health_route <;>
  rcases h : can_take_more_traffic o M with e | b
· simp
· rcases b with _ | _ <;> simp
· simp
· rcases b with _ | _ <;> simp

/-- C5 (confirmed): on a successfully exiting command, the inspector splits
stdout on `":"`, takes the second field, trims it and parses it as a base-10
`i32`; a missing second field or an unparseable token is a parse error. -/
theorem claim5_theorem :
    (∀ out : String, get_queue_length (ProcOutcome.completed true out) =
      match (splitOnChar ':' out.data)[1]? with
      | some t =>
        match parse_i32_core (trimChars t) with
        | some n => Except.ok n
        | none => Except.error InspectError.parseFailed
      | none => Except.error InspectError.parseFailed) ∧
    get_queue_length (ProcOutcome.completed true "Requests in top-level queue : 0") =
      Except.ok 0 ∧
    get_queue_length (ProcOutcome.completed true "no colon here") =
      Except.error InspectError.parseFailed ∧
    get_queue_length (ProcOutcome.completed true "Requests in queue : abc") =
      Except.error InspectError.parseFailed := by
refine ⟨fun out => ?_, rfl, rfl, rfl⟩
show (match parseQueueOutput out with
      | some n => Except.ok n
      | none => Except.error InspectError.parseFailed) = _
unfold parseQueueOutput
rcases h : (splitOnChar ':' out.data)[1]? with _ | t
· rfl
· rcases h2 : parse_i32_core (trimChars t) with _ | n <;> simp [h2]

/-- C6 (corrected), counterexample: an `io::Error` from the invocation itself
(`.output()` failing, e.g. the shell cannot be spawned) makes the inspector
return an error even though the command neither timed out, nor exited with a
non-zero status, nor produced unparseable output — a third non-parse error
case beyond the two the claim enumerates. -/
theorem claim6_counterexample :
    isInspectErr (get_queue_length ProcOutcome.ioErr) = true ∧
    isTimedOut ProcOutcome.ioErr = false ∧
    isNonzeroExit ProcOutcome.ioErr = false ∧
    isParseFailure ProcOutcome.ioErr = false :=
⟨rfl, rfl, rfl, rfl⟩

/-- C6 (corrected): the wait is bounded by 5 seconds, and the inspector
errors in exactly three non-parse cases — the timeout elapsing, an I/O
failure of the invocation itself, and a non-zero exit status — plus the
parse-failure case. -/
theorem claim6_theorem :
    inspectTimeoutSecs = 5 ∧
    ∀ o : ProcOutcome, isInspectErr (get_queue_length o) = true ↔
      (isTimedOut o = true ∨ isIoErr o = true ∨ isNonzeroExit o = true ∨
        isParseFailure o = true) := by
refine ⟨rfl, fun o => ?_⟩
rcases o with _ | _ | ⟨b, s⟩
· simp [get_queue_length, isInspectErr, isTimedOut, isIoErr, isNonzeroExit, isParseFailure]
· simp [get_queue_length, isInspectErr, isTimedOut, isIoErr, isNonzeroExit, isParseFailure]
· rcases b with _ | _
  · simp [get_queue_length, isInspectErr, isTimedOut, isIoErr, isNonzeroExit, isParseFailure]
  · rcases h : parseQueueOutput s with _ | n <;>
      simp [get_queue_length, isInspectErr, isTimedOut, isIoErr, isNonzeroExit,
        isParseFailure, h]

/-- C7 (confirmed): the evaluator and the health handler are total — for every
inspector outcome and configuration the evaluator yields `Ok(true)`,
`Ok(false)` or an error it swallows, and the handler always produces exactly
one of the two replies, never a rejection. -/
theorem claim7_theorem :
    (∀ (o : ProcOutcome) (M : ℤ),
      can_take_more_traffic o M = Except.ok true ∨
      can_take_more_traffic o M = Except.ok false ∨
      ∃ ε, can_take_more_traffic o M = Except.error ε) ∧
    ∀ (o : ProcOutcome) (M : ℤ),
      health_route o M = Except.ok (200, "true") ∨
      health_route o M = Except.ok (503, "false") := by
constructor
· intro o M
  rcases h : can_take_more_traffic o M with e | b
  · right
    right
    exact ⟨e, rfl⟩
  · rcases b with _ | _
    · right
      left
      rfl
    · left
      rfl
· intro o M
  exact health_route_total o M

/-- C8 (confirmed): with no environment override, the loaded configuration is
`max_queue_length = 100`, `server_port = 8080`. -/
theorem claim8_theorem :
    load_settings [] = Except.ok { max_queue_length := 100, server_port := 8080 } :=
rfl

/-- C9 (corrected), counterexample: the f32 verdict disagrees with the exact
comparison `d < 0.8 * M` already at inputs that are exactly representable in
f32 (`|d|, |M| ≤ 2^24`), for both signs of `M` — so exact representability of
the operands is not sufficient for agreement. -/
theorem claim9_counterexample :
    (verdictF32 8388611 10485764 = false ∧
      (((8388611 : ℤ)) : ℚ) < 0.8 * (((10485764 : ℤ)) : ℚ) ∧
      (8388611 : ℤ) ≤ 2 ^ 24 ∧ (10485764 : ℤ) ≤ 2 ^ 24) ∧
    (verdictF32 (-4194305) (-5242881) = false ∧
      (((-4194305 : ℤ)) : ℚ) < 0.8 * (((-5242881 : ℤ)) : ℚ) ∧
      -(2 ^ 24) ≤ (-4194305 : ℤ) ∧ -(2 ^ 24) ≤ (-5242881 : ℤ)) :=
⟨⟨verdictF32_8388611_10485764, by norm_num, by norm_num, by norm_num⟩,
  ⟨verdictF32_neg4194305_neg5242881, by norm_num, by norm_num, by norm_num⟩⟩

/-- C9 (corrected): the verdict is the f32 computation
`(d as f32) < (M as f32) * 0.8f32` (modelled by `verdictF32`, which the
evaluator applies to every successfully observed depth), and it agrees with
the exact rational comparison `d < 0.8 * M` for `|d| ≤ 2^24` and
`0 ≤ M ≤ 10485759`; within the exactly-representable range the two can
already differ (first failing positive `M` is 10485764, and negative `M`
fails as well), so the i32-to-f32 conversion rounding is not the only source
of divergence. -/
theorem claim9_theorem (d M : ℤ) (_hd1 : -(2 ^ 24) ≤ d) (_hd2 : d ≤ 2 ^ 24)
    (hM1 : 0 ≤ M) (hM2 : M ≤ 10485759) :
    (verdictF32 d M = true ↔ (d : ℚ) < 0.8 * (M : ℚ)) ∧
    ∀ o : ProcOutcome, get_queue_length o = Except.ok d →
      can_take_more_traffic o M = Except.ok (verdictF32 d M) := by
constructor
· rcases (by omega : M = 0 ∨ 0 < M) with hMz | hMpos
  · subst hMz
    rw [verdictF32_zero_max d]
    constructor
    · intro h
      have hdq : (d : ℚ) < 0 := by exact_mod_cast h
      push_cast
      linarith
    · intro h
      push_cast at h
      have hdq : (d : ℚ) < 0 := by linarith
      exact_mod_cast hdq
  · exact (verdictF32_eq_exact d M hMpos hM2).trans (exact_cmp_iff d M).symm
· intro o h
  exact can_take_eq o d M h

/-- C9 witness: depth 42 against maximum 100 (both exactly representable)
is admitted, agreeing with `42 < 80`. -/
theorem claim9_witness : verdictF32 42 100 = true :=
(claim9_theorem 42 100 (by norm_num) (by norm_num) (by norm_num) (by norm_num)).1.mpr
  (by norm_num)

/-- C10 (confirmed): the depth token is parsed as a 32-bit signed integer —
negative tokens such as `"-5"` are accepted and returned as negative depths,
the boundary values `±2^31` behave as `i32` does, and any well-formed decimal
integer outside `[-2^31, 2^31 - 1]` is a parse error. -/
theorem claim10_theorem :
    parse_i32 "-5" = some (-5) ∧
    get_queue_length (ProcOutcome.completed true "Requests in top-level queue : -5") =
      Except.ok (-5) ∧
    parse_i32 "2147483647" = some 2147483647 ∧
    parse_i32 "2147483648" = none ∧
    parse_i32 "-2147483648" = some (-2147483648) ∧
    parse_i32 "-2147483649" = none ∧
    (∀ (cs : List Char) (v : ℤ), parseIntUnbounded cs = some v →
      (parse_i32_core cs = some v ↔ -(2 ^ 31) ≤ v ∧ v ≤ 2 ^ 31 - 1)) ∧
    (∀ (cs : List Char) (v : ℤ), parseIntUnbounded cs = some v →
      (v < -(2 ^ 31) ∨ 2 ^ 31 - 1 < v) → parse_i32_core cs = none) := by
refine ⟨rfl, rfl, rfl, rfl, rfl, rfl, ?_, ?_⟩
· intro cs v h
  unfold parse_i32_core
  rw [h]
  show (if -(2 ^ 31) ≤ v ∧ v ≤ 2 ^ 31 - 1 then some v else none) = some v ↔
    -(2 ^ 31) ≤ v ∧ v ≤ 2 ^ 31 - 1
  split_ifs with hr
  · exact iff_of_true rfl hr
  · exact iff_of_false (by simp) hr
· intro cs v h hout
  unfold parse_i32_core
  rw [h]
  show (if -(2 ^ 31) ≤ v ∧ v ≤ 2 ^ 31 - 1 then some v else none) = none
  rw [if_neg (by omega)]

/-- C10 witness: `"2147483648"` is a well-formed decimal integer one past
`i32::MAX`, and parsing it as `i32` fails. -/
theorem claim10_witness :
    parseIntUnbounded "2147483648".data = some 2147483648 ∧
    parse_i32_core "2147483648".data = none :=
⟨rfl, claim10_theorem.2.2.2.2.2.2.2 "2147483648".data 2147483648 rfl
  (Or.inr (by norm_num))⟩

end PassengerReady
